import Mathlib

/-!
Verification of the format-description and binary packing subsystem of
pyglbuffers (src/pyglbuffers.py), as a shallow embedding in Lean 4.

Strings are modelled as `List Char`.  The embedding is ASCII-exact: the
Python regex classes `\d` and `\w` match Unicode in general, but every
input considered here is ASCII, where `Char.isDigit` and
`isAlphanum || (c = underscore)` coincide with them.

Machine integers stored by ctypes are modelled as `Int` reduced modulo the
field width.  ctypes float storage is modelled exactly on integer inputs
(IEEE rounding is out of scope; no claim theorem depends on the numeric
value stored in a float field), but the OverflowError that the c_float
and c_double setters raise on ints beyond double range is modelled.
-/

/-- The eight ctypes element classes used by `BUFFER_FORMAT_TYPES_MAP`:
GLfloat, GLdouble, GLbyte, GLubyte, GLint, GLuint, GLshort, GLushort. -/
inductive CType where
  | glfloat | gldouble | glbyte | glubyte | glint | gluint | glshort | glushort

deriving DecidableEq, Repr

/-- The eight OpenGL enum constants paired with the ctypes classes in
`BUFFER_FORMAT_TYPES_MAP`. -/
inductive GLType where
  | float | double | byte | ubyte | int | uint | short | ushort

deriving DecidableEq, Repr

/-- The ctypes array type `_type * size`: element class and length, as built
at line 213 of the source (`token.type`). -/
abbrev CArray := CType × Nat

/-- ctypes `sizeof` for each element class on the usual LP64 platform. -/
def CType.csize : CType → Nat
  | .glfloat => 4
  | .gldouble => 8
  | .glbyte => 1
  | .glubyte => 1
  | .glint => 4
  | .gluint => 4
  | .glshort => 2
  | .glushort => 2

/-- ctypes alignment of each element class (equal to its size on LP64). -/
def CType.calign (t : CType) : Nat := t.csize

/-- `BUFFER_FORMAT_TYPES_MAP`: format character to (ctypes class, GL enum). -/
def typeMap : Char → Option (CType × GLType)
  | 'f' => some (.glfloat, .float)
  | 'd' => some (.gldouble, .double)
  | 'b' => some (.glbyte, .byte)
  | 'B' => some (.glubyte, .ubyte)
  | 'i' => some (.glint, .int)
  | 'I' => some (.gluint, .uint)
  | 's' => some (.glshort, .short)
  | 'S' => some (.glushort, .ushort)
  | _ => none

/-- The character class `[fdbBsSiI]` of the token regex at line 143. -/
def tokenTypeChars : List Char := ['f', 'd', 'b', 'B', 's', 'S', 'i', 'I']

/-- ASCII reading of the regex class `\w`. -/
def isWordChar (c : Char) : Bool := c.isAlphanum || c = '_'

/-- Numeric value of a decimal digit character (Python `int` applied to a
one-character digit string). -/
def digitVal (c : Char) : Nat := c.toNat - '0'.toNat

/-- One match of the token regex `\((\d)+([fdbBsSiI])\)\[(\w+)\]`.
`digits` is the whole digit run; because the regex repeats a one-character
group, Python keeps only the LAST digit as group 1. -/
structure TokenPiece where
  digits : List Char
  tc : Char
  name : List Char

deriving DecidableEq, Repr

/-- The text a token piece occupies in the input. -/
def TokenPiece.render (p : TokenPiece) : List Char :=
  '(' :: p.digits ++ p.tc :: ')' :: '[' :: p.name ++ [']']

/-- Match the token regex at the start of `l`, returning the piece and the
rest of the input.  The pattern is deterministic: the digit run and the
name run are maximal, no type character is a digit and the closing bracket
is not a word character, so no backtracking can yield another match. -/
def matchTokenAt : List Char → Option (TokenPiece × List Char)
  | [] => none
  | c0 :: r1 =>
    if c0 ≠ '(' then none else
    if (r1.takeWhile Char.isDigit).isEmpty then none else
    match r1.dropWhile Char.isDigit with
    | tc :: c1 :: c2 :: r3 =>
      if tc ∉ tokenTypeChars then none else
      if c1 ≠ ')' ∨ c2 ≠ '[' then none else
      if (r3.takeWhile isWordChar).isEmpty then none else
      match r3.dropWhile isWordChar with
      | c3 :: r5 =>
        if c3 ≠ ']' then none else
        some (⟨r1.takeWhile Char.isDigit, tc, r3.takeWhile isWordChar⟩, r5)
      | _ => none
    | _ => none

/-- The shape a token piece must have to be produced by the regex. -/
def TokenPiece.WFShape (p : TokenPiece) : Prop :=
  p.digits ≠ [] ∧ (∀ c ∈ p.digits, c.isDigit = true) ∧ p.tc ∈ tokenTypeChars ∧
    p.name ≠ [] ∧ (∀ c ∈ p.name, isWordChar c = true)

instance (p : TokenPiece) : Decidable p.WFShape := by
  unfold TokenPiece.WFShape; infer_instance

/-- Scanner worker, structurally recursive on a step budget so that the
kernel can evaluate it; `finditer` instantiates the budget with the input
length, which the consumption lemma shows is always enough. -/
def finditerGo : Nat → List Char → List TokenPiece
  | 0, _ => []
  | fuel + 1, l =>
    match matchTokenAt l with
    | some (p, rest) => p :: finditerGo fuel rest
    | none =>
      match l with
      | [] => []
      | _ :: l2 => finditerGo fuel l2

/-- `re.finditer` of the token pattern over the input: at each position try
to match; on failure move one character forward, on success continue after
the match.  For this pattern (no empty matches, single possible match per
start position) this is exactly the leftmost, non-overlapping semantics of
`finditer`. -/
def finditer (l : List Char) : List TokenPiece := finditerGo l.length l

/-- One parsed field, `BufferFormat.token = namedtuple('FormatToken',
('offset', 'gl_type', 'size', 'type', 'name'))`. -/
structure FormatToken where
  offset : Nat
  gl_type : GLType
  size : Nat
  type : CArray
  name : List Char

deriving DecidableEq, Repr

/-- The descriptor built by `BufferFormat.from_string`.  The `item`
named-tuple class and the ctypes `struct` class of the source are both
derived from `tokens` (names, types), so only the tokens are stored. -/
structure BufferFormat where
  tokens : List FormatToken

deriving DecidableEq, Repr

/-- Distinct failures of `BufferFormat.from_string`.  The first two are the
explicit raises; `ntXxx` are the ValueError raised inside
`namedtuple('V', names)` at line 227 of the source. -/
inductive ParseError where
  | formatMustBePresent
  | invalidVarName (name : List Char)
  | formatNotValid
  | typeLookupFailed (c : Char)
  | ntBadIdentifier (name : List Char)
  | ntKeyword (name : List Char)
  | ntUnderscore (name : List Char)
  | ntDuplicate (name : List Char)

deriving DecidableEq, Repr

deriving instance DecidableEq for Except

/-- The compiled regex `pyvars = [_a-zA-Z][_\w]+`, applied with `.match`:
returns the span end of a match anchored at position 0, if any.  The first
character must be a letter or underscore, then one or more word characters
are taken greedily. -/
def pyvarsMatchEnd : List Char → Option Nat
  | [] => none
  | c :: rest =>
    if c.isAlpha || c = '_' then
      if (rest.takeWhile isWordChar).isEmpty then none
      else some (1 + (rest.takeWhile isWordChar).length)
    else none

/-- Line 209: `name_match is None or name_match.span() != (0, len(name))`
negated, i.e. the name check passes. -/
def pyvarsFull (l : List Char) : Bool :=
  pyvarsMatchEnd l = some l.length

/-- The Python 3 keyword list, as tested by `keyword.iskeyword` inside
`collections.namedtuple`. -/
def pyKeywords : List (List Char) :=
  ["False", "None", "True", "and", "as", "assert", "async", "await",
   "break", "class", "continue", "def", "del", "elif", "else", "except",
   "finally", "for", "from", "global", "if", "import", "in", "is",
   "lambda", "nonlocal", "not", "or", "pass", "raise", "return", "try",
   "while", "with", "yield"].map String.toList

/-- Python `str.isidentifier`, restricted to ASCII. -/
def isIdentifier : List Char → Bool
  | [] => false
  | c :: rest => (c.isAlpha || c = '_') && rest.all isWordChar

/-- First validation loop of `collections.namedtuple`: every name (the
typename `V` trivially passes) must be an identifier and must not be a
keyword. -/
def ntLoopIdent : List (List Char) → Option ParseError
  | [] => none
  | n :: rest =>
    if ¬ isIdentifier n then some (.ntBadIdentifier n)
    else if n ∈ pyKeywords then some (.ntKeyword n)
    else ntLoopIdent rest

/-- Second validation loop of `collections.namedtuple`: no field name may
start with an underscore or repeat an already seen name. -/
def ntLoopSeen (seen : List (List Char)) : List (List Char) → Option ParseError
  | [] => none
  | n :: rest =>
    if n.head? = some '_' then some (.ntUnderscore n)
    else if n ∈ seen then some (.ntDuplicate n)
    else ntLoopSeen (n :: seen) rest

/-- `namedtuple('V', names)` validation: identifier/keyword loop first,
then underscore/duplicate loop. -/
def namedtupleCheck (names : List (List Char)) : Option ParseError :=
  match ntLoopIdent names with
  | some e => some e
  | none => ntLoopSeen [] names

/-- The token-building loop of `from_string` (lines 202-216): for each
regex match, look up the type character, take `int(groups[0])` - which is
the LAST digit only, since the pattern repeats a one-character group -
validate the name against `pyvars`, and accumulate the byte offset by
`sizeof(token.type) = size * sizeof(element)`. -/
def buildTokens : List TokenPiece → Nat → Except ParseError (List FormatToken)
  | [], _ => .ok []
  | p :: ps, off =>
    match typeMap p.tc with
    | none => .error (.typeLookupFailed p.tc)
    | some (ct, gt) =>
      let size := digitVal (p.digits.getLastD '0')
      if pyvarsFull p.name then
        match buildTokens ps (off + size * ct.csize) with
        | .error e => .error e
        | .ok toks => .ok (⟨off, gt, size, (ct, size), p.name⟩ :: toks)
      else .error (.invalidVarName p.name)

/-- `BufferFormat.from_string` applied to an already space-stripped string:
the emptiness check, the token loop, the full-coverage check
(`format_str_2 != format_str`), and the `namedtuple` construction. -/
def fromStringStripped (s : List Char) : Except ParseError BufferFormat :=
  if s.isEmpty then .error .formatMustBePresent
  else
    let ms := finditer s
    match buildTokens ms 0 with
    | .error e => .error e
    | .ok toks =>
      if (ms.map TokenPiece.render).flatten = s then
        match namedtupleCheck (toks.map FormatToken.name) with
        | some e => .error e
        | none => .ok ⟨toks⟩
      else .error .formatNotValid

/-- `BufferFormat.from_string`: line 194 removes every space character
(only `' '`, not other whitespace) and the rest of the function follows. -/
def BufferFormat.from_string (s : List Char) : Except ParseError BufferFormat :=
  fromStringStripped (s.filter (fun c => c != ' '))

/-- Field layout of the ctypes `Structure` built at line 231 (no `_pack_`
attribute, so the default ABI alignment applies): each field is placed at
the next multiple of its element alignment. Returns the field offsets and
the end of the last field. -/
def structOffsetsAux : List CArray → Nat → List Nat
  | [], _ => []
  | (ct, n) :: rest, cur =>
    let off := ((cur + ct.calign - 1) / ct.calign) * ct.calign
    off :: structOffsetsAux rest (off + n * ct.csize)

/-- End offset after laying out all fields with ABI alignment. -/
def structEnd : List CArray → Nat → Nat
  | [], cur => cur
  | (ct, n) :: rest, cur =>
    let off := ((cur + ct.calign - 1) / ct.calign) * ct.calign
    structEnd rest (off + n * ct.csize)

/-- Total alignment of the struct: maximum field alignment (1 if none). -/
def structAlign (fields : List CArray) : Nat :=
  fields.foldl (fun a f => max a f.1.calign) 1

/-- `sizeof` of the ctypes `Structure` for this format: end of the last
field rounded up to the struct alignment.  This is the record stride
actually used by `pack`, `pack_single` and the buffer upload calls. -/
def BufferFormat.structSize (f : BufferFormat) : Nat :=
  let fields := f.tokens.map FormatToken.type
  let e := structEnd fields 0
  ((e + structAlign fields - 1) / structAlign fields) * structAlign fields

/-- Offsets at which the ctypes struct actually places each field. -/
def BufferFormat.structFieldOffsets (f : BufferFormat) : List Nat :=
  structOffsetsAux (f.tokens.map FormatToken.type) 0

/-- Byte size of a packed block of `n` records:
`sizeof((struct * n)())`. -/
def BufferFormat.blockSize (f : BufferFormat) (n : Nat) : Nat := n * f.structSize

/-- Sum of `count * sizeof(element)` over all fields - the padding-free
record size that the token offsets of `from_string` presuppose. -/
def BufferFormat.packedRecordSize (f : BufferFormat) : Nat :=
  (f.tokens.map (fun t => t.size * t.type.1.csize)).sum

/-- A Python value handed to the packing engine: a number or a sequence.
Scalars are modelled as integers; the wrapping control flow of `pack` and
`pack_single` does not depend on the numeric kind. -/
inductive PyVal where
  | int (n : Int)
  | seq (l : List PyVal)

/-- `isinstance(x, Sequence)` for our value model (tuples and lists are
Sequences, numbers are not). -/
def PyVal.isSequence : PyVal → Bool
  | .seq _ => true
  | .int _ => false

/-- The Python exceptions that can escape a ctypes conversion or a
subscript: TypeError, IndexError, and OverflowError (raised by
`float(n)` inside the c_float/c_double setters when the int exceeds
double range). -/
inductive Exc where
  | typeErr
  | indexErr
  | overflowErr

deriving DecidableEq, Repr

/-- `x[0]`: TypeError on a number (not subscriptable), IndexError on an
empty sequence. -/
def pyIndex0 : PyVal → Except Exc PyVal
  | .int _ => .error .typeErr
  | .seq [] => .error .indexErr
  | .seq (x :: _) => .ok x

/-- Value stored by one ctypes element assignment.  Integer classes mask
the Python int to the field width (ctypes does no overflow checking);
float and double store the number itself (exact on the integer inputs used
here; IEEE rounding is out of scope). -/
def cconvertInt : CType → Int → Int
  | .glfloat, n => n
  | .gldouble, n => n
  | .glbyte, n => (n + 128).emod 256 - 128
  | .glubyte, n => n.emod 256
  | .glshort, n => (n + 32768).emod 65536 - 32768
  | .glushort, n => n.emod 65536
  | .glint, n => (n + 2147483648).emod 4294967296 - 2147483648
  | .gluint, n => n.emod 4294967296

/-- Smallest magnitude at which Python `float(n)` raises OverflowError:
round-to-nearest-even sends `n` beyond DBL_MAX exactly when
`|n| >= 2^1024 - 2^970`.  The c_float and c_double setters call this
conversion first, so such ints raise OverflowError (uncaught by the
`except TypeError` handlers); smaller ints convert without error (the
further double-to-float32 cast never raises). -/
def floatOverflowBound : Nat := 2 ^ 1024 - 2 ^ 970

/-- One element passed to the ctypes array constructor: a number converts
(raising OverflowError if a float or double field receives an int beyond
double range), a nested sequence raises TypeError. -/
def cconvert (ct : CType) : PyVal → Except Exc Int
  | .int n =>
    if (ct = .glfloat ∨ ct = .gldouble) ∧ floatOverflowBound ≤ n.natAbs then
      .error .overflowErr
    else .ok (cconvertInt ct n)
  | .seq _ => .error .typeErr

/-- The conversion of one integer scalar into a field of the given element
class succeeds (no OverflowError).  This is the convertibility half of a
group matching its field shape. -/
def convertsOk (ct : CType) (n : Int) : Bool :=
  match cconvert ct (.int n) with
  | .ok _ => true
  | .error _ => false

/-- The assignment loop of the ctypes array constructor
`token.type(*subdata)`: elements are assigned in order; an index beyond
the array length raises IndexError, a non-numeric element TypeError. -/
def arrayAssign (ct : CType) (count : Nat) : List PyVal → Nat → Except Exc (List Int)
  | [], _ => .ok []
  | v :: rest, i =>
    if count ≤ i then .error .indexErr
    else
      match cconvert ct v with
      | .error e => .error e
      | .ok x =>
        match arrayAssign ct count rest (i + 1) with
        | .error e => .error e
        | .ok xs => .ok (x :: xs)

/-- `token.type(*subdata)`: unpacking a non-sequence raises TypeError;
otherwise the array is zero-initialized and the given elements assigned,
so missing trailing elements stay zero. -/
def arrayInit (ct : CType) (count : Nat) : PyVal → Except Exc (List Int)
  | .int _ => .error .typeErr
  | .seq l =>
    match arrayAssign ct count l 0 with
    | .error e => .error e
    | .ok xs => .ok (xs ++ List.replicate (count - l.length) 0)

/-- Python attribute assignment on the ctypes struct stores through the
class dict entry for that name; when `_fields_` repeats a name, the later
field descriptor overwrites the earlier dict entry, so the LAST field with
that name receives the value.  (Formats built by `from_string` never have
duplicate names - `namedtuple` rejects them - so this equals positional
update there.) -/
def lastIdxOf (nm : List Char) : List (List Char) → Option Nat
  | [] => none
  | n :: rest =>
    match lastIdxOf nm rest with
    | some k => some (k + 1)
    | none => if n = nm then some 0 else none

/-- `setattr(buffer, token.name, value)` on the modelled struct contents. -/
def setattrStruct (names : List (List Char)) (vals : List (List Int))
    (nm : List Char) (v : List Int) : List (List Int) :=
  match lastIdxOf nm names with
  | some i => vals.set i v
  | none => vals

/-- A freshly constructed `self.struct()`: every field zero-initialized. -/
def BufferFormat.zeroStruct (f : BufferFormat) : List (List Int) :=
  f.tokens.map (fun t => List.replicate t.type.2 0)

/-- The inner loop shared by `pack` and `pack_single`:
`for subdata, token in zip(iter(data), iter(self.tokens)):
setattr(buffer, token.name, token.type(*subdata))`.  `zip` stops at the
shorter side, so extra sub-values are ignored and missing fields keep
their zero initialization. -/
def fillGroups (names : List (List Char)) :
    List (PyVal × FormatToken) → List (List Int) → Except Exc (List (List Int))
  | [], acc => .ok acc
  | (g, t) :: rest, acc =>
    match arrayInit t.type.1 t.type.2 g with
    | .error e => .error e
    | .ok v => fillGroups names rest (setattrStruct names acc t.name v)

/-- Pack one record into one zero-initialized struct. `iter(record)` on a
number raises TypeError. -/
def fillRecord (f : BufferFormat) : PyVal → Except Exc (List (List Int))
  | .int _ => .error .typeErr
  | .seq gs => fillGroups (f.tokens.map FormatToken.name) (gs.zip f.tokens) f.zeroStruct

/-- Outcome of a packing call.  `unboundLocal` models the broken
`except TypeError` handler of lines 261-271 / 294-304: the handler walks
`BUFFER_FORMAT_TYPES_MAP.items()` testing `v is token.type._type_`, but
`v` is the `(ctype, gl_enum)` tuple while `token.type._type_` is the bare
ctype class, so the test never succeeds, `format_str` is never assigned,
and evaluating `msg.format(format_str, subdata)` raises UnboundLocalError
instead of the intended ValueError.  `exc e` is an exception that escapes
uncaught (IndexError everywhere; TypeError when raised outside the `try`,
which happens only in the wrapping test of `pack`). -/
inductive PackOutcome (α : Type) where
  | ok (v : α)
  | valueError (msg : String)
  | unboundLocal
  | exc (e : Exc)

deriving DecidableEq, Repr

/-- Convert an exception raised inside the `try` block: TypeError is
caught and funnelled into the broken handler (hence UnboundLocalError),
IndexError propagates. -/
def caughtOutcome {α : Type} : Exc → PackOutcome α
  | .typeErr => .unboundLocal
  | .indexErr => .exc .indexErr
  | .overflowErr => .exc .overflowErr

/-- The per-record loop of `pack` over `zip(iter_data, iter(buffers))`. -/
def packRecords (f : BufferFormat) : List PyVal → PackOutcome (List (List (List Int)))
  | [] => .ok []
  | r :: rs =>
    match fillRecord f r with
    | .error e => caughtOutcome e
    | .ok b =>
      match packRecords f rs with
      | .ok bs => .ok (b :: bs)
      | out => out

/-- The single-field shorthand test of `pack` (lines 250-253), evaluated
OUTSIDE the `try`: `len(self.tokens) > 1 or isinstance(data[0][0],
Sequence)`.  Any exception from `data[0][0]` escapes uncaught. -/
def packWrapTest (f : BufferFormat) (data : List PyVal) : Except Exc Bool :=
  if f.tokens.length > 1 then .ok true
  else
    match data with
    | [] => .error .indexErr
    | d :: _ =>
      match pyIndex0 d with
      | .error e => .error e
      | .ok d0 => .ok d0.isSequence

/-- `BufferFormat.pack` (lines 235-273): empty-input check, single-field
shorthand, then the packing loop; TypeError inside the loop is caught by
the broken handler, IndexError propagates. -/
def BufferFormat.pack (f : BufferFormat) (data : List PyVal) :
    PackOutcome (List (List (List Int))) :=
  if data.length = 0 then .valueError "No data to pack"
  else
    match packWrapTest f data with
    | .error e => .exc e
    | .ok wrapped =>
      packRecords f (if wrapped then data else data.map (fun d => PyVal.seq [d]))

/-- The single-field shorthand of `pack_single` (lines 286-287), evaluated
INSIDE the `try`: `if len(self.tokens) == 1 and not isinstance(data[0],
Sequence): data = (data,)`. -/
def packSingleWrap (f : BufferFormat) (data : PyVal) : Except Exc PyVal :=
  if f.tokens.length = 1 then
    match pyIndex0 data with
    | .error e => .error e
    | .ok d0 => .ok (if d0.isSequence then data else .seq [data])
  else .ok data

/-- `BufferFormat.pack_single` (lines 275-306). -/
def BufferFormat.pack_single (f : BufferFormat) (data : PyVal) :
    PackOutcome (List (List Int)) :=
  match packSingleWrap f data with
  | .error e => caughtOutcome e
  | .ok data2 =>
    match fillRecord f data2 with
    | .error e => caughtOutcome e
    | .ok b => .ok b

/-- A well-formed token per the spec grammar: `(<digits><type-char>)[<name>]`
with one or more digits, a type character from the fixed set, and a name
satisfying the identifier syntax `[_a-zA-Z][_a-zA-Z0-9]+` (length at least
2, letter or underscore start). -/
def TokenPiece.SpecWF (p : TokenPiece) : Prop :=
  p.digits ≠ [] ∧ (∀ c ∈ p.digits, c.isDigit = true) ∧ p.tc ∈ tokenTypeChars ∧
    ((p.name.headD ' ').isAlpha || (p.name.headD ' ') = '_') = true ∧
    2 ≤ p.name.length ∧ (∀ c ∈ p.name, isWordChar c = true)

instance (p : TokenPiece) : Decidable p.SpecWF := by
  unfold TokenPiece.SpecWF; infer_instance

/-- Names acceptable to the `namedtuple` construction: pairwise distinct,
no Python keyword, no leading underscore. -/
def NamesOK (ns : List (List Char)) : Prop :=
  (∀ n ∈ ns, n ∉ pyKeywords ∧ n.head? ≠ some '_') ∧ ns.Nodup

instance (ns : List (List Char)) : Decidable (NamesOK ns) := by
  unfold NamesOK; infer_instance

/-- The spec-side success condition on an already space-stripped string:
it is a non-empty exact concatenation of well-formed tokens whose names
the named-tuple construction accepts. -/
def SpecConcat (s : List Char) : Prop :=
  ∃ ps : List TokenPiece, ps ≠ [] ∧ s = (ps.map TokenPiece.render).flatten ∧
    (∀ p ∈ ps, p.SpecWF) ∧ NamesOK (ps.map TokenPiece.name)

/-- A sub-value supplied for one field: a sequence of scalars. -/
def seqifyGroup (g : List Int) : PyVal := .seq (g.map PyVal.int)

/-- A record supplied to the packing engine: a sequence of field groups. -/
def mkRecord (gs : List (List Int)) : PyVal := .seq (gs.map seqifyGroup)

/-- What the packing loop produces on a record of integer groups: in field
order, a supplied group is converted element-wise, fields beyond the
supplied groups keep their zero initialization, and groups beyond the
fields are dropped. -/
def expectedFill : List FormatToken → List (List Int) → List (List Int)
  | ts, [] => ts.map (fun t => List.replicate t.type.2 0)
  | [], _ => []
  | t :: ts, g :: gs => g.map (cconvertInt t.type.1) :: expectedFill ts gs

/-- The descriptor parsed from the mixed-size format `(1b)[ab](1i)[cd]`. -/
def fmtByteInt : BufferFormat :=
  ⟨[⟨0, .byte, 1, (.glbyte, 1), ['a', 'b']⟩,
    ⟨1, .int, 1, (.glint, 1), ['c', 'd']⟩]⟩

/-- The descriptor parsed from `(3i)[pos]`. -/
def fmtPos3i : BufferFormat := ⟨[⟨0, .int, 3, (.glint, 3), ['p', 'o', 's']⟩]⟩

/-- The descriptor parsed from `(2i)[ab](2i)[cd]`. -/
def fmtTwo2i : BufferFormat :=
  ⟨[⟨0, .int, 2, (.glint, 2), ['a', 'b']⟩,
    ⟨8, .int, 2, (.glint, 2), ['c', 'd']⟩]⟩

theorem takeWhile_append_eval {α : Type} {p : α → Bool} {l₁ : List α}
    (h1 : ∀ a ∈ l₁, p a = true) {c : α} (h2 : p c = false) (l₂ : List α) :
    (l₁ ++ c :: l₂).takeWhile p = l₁ ∧ (l₁ ++ c :: l₂).dropWhile p = c :: l₂ := by
  induction l₁ with
  | nil => simp [List.takeWhile, List.dropWhile, h2]
  | cons a l ih =>
    have ha : p a = true := h1 a (by simp)
    have ih2 := ih (fun b hb => h1 b (by simp [hb]))
    simp [List.takeWhile, List.dropWhile, ha, ih2.1, ih2.2]

/-- Everything true of a successful token match. -/
theorem matchTokenAt_sound {l : List Char} {p : TokenPiece} {r : List Char}
    (h : matchTokenAt l = some (p, r)) :
    l = p.render ++ r ∧ p.digits ≠ [] ∧ (∀ c ∈ p.digits, c.isDigit = true) ∧
      p.tc ∈ tokenTypeChars ∧ p.name ≠ [] ∧ (∀ c ∈ p.name, isWordChar c = true) := by
  match l with
  | [] => simp [matchTokenAt] at h
  | c0 :: r1 =>
    simp only [matchTokenAt] at h
    split at h
    case isTrue => exact absurd h (by simp)
    case isFalse hc0 =>
    rw [not_not] at hc0
    subst hc0
    split at h
    case isTrue => exact absurd h (by simp)
    case isFalse hdne =>
    split at h
    case h_2 => exact absurd h (by simp)
    case h_1 tc c1 c2 r3 heq2 =>
    split at h
    case isTrue => exact absurd h (by simp)
    case isFalse htc =>
    rw [not_not] at htc
    split at h
    case isTrue => exact absurd h (by simp)
    case isFalse hbr =>
    push_neg at hbr
    obtain ⟨hc1, hc2⟩ := hbr
    subst hc1
    subst hc2
    split at h
    case isTrue => exact absurd h (by simp)
    case isFalse hnne =>
    split at h
    case h_2 => exact absurd h (by simp)
    case h_1 c3 r5 heq4 =>
    split at h
    case isTrue => exact absurd h (by simp)
    case isFalse hc3 =>
    rw [not_not] at hc3
    subst hc3
    rw [Option.some.injEq, Prod.mk.injEq] at h
    obtain ⟨hp, hr⟩ := h
    subst hp
    subst hr
    have e1 : r1.takeWhile Char.isDigit ++ r1.dropWhile Char.isDigit = r1 :=
      List.takeWhile_append_dropWhile _ _
    have e3 : r3.takeWhile isWordChar ++ r3.dropWhile isWordChar = r3 :=
      List.takeWhile_append_dropWhile _ _
    refine ⟨?_, by simpa using hdne, fun c hc => List.mem_takeWhile_imp hc,
      htc, by simpa using hnne, fun c hc => List.mem_takeWhile_imp hc⟩
    have hr1 : r1 = r1.takeWhile Char.isDigit ++ (tc :: ')' :: '[' :: r3) := by
      rw [← heq2, e1]
    conv_lhs => rw [hr1]
    have hr3 : r3 = r3.takeWhile isWordChar ++ (']' :: r5) := by
      rw [← heq4, e3]
    conv_lhs => rw [hr3]
    simp [TokenPiece.render]

theorem tokenTypeChars_not_digit {c : Char} (h : c ∈ tokenTypeChars) :
    c.isDigit = false := by
  fin_cases h <;> decide

/-- A well-shaped rendered token matches, consuming exactly its own text. -/
theorem matchTokenAt_complete {p : TokenPiece} (hp : p.WFShape) (rest : List Char) :
    matchTokenAt (p.render ++ rest) = some (p, rest) := by
  obtain ⟨hd, hdall, htc, hn, hnall⟩ := hp
  obtain ⟨digits, tc, name⟩ := p
  have e1 := takeWhile_append_eval (p := Char.isDigit) hdall
    (c := tc) (tokenTypeChars_not_digit htc) (')' :: '[' :: (name ++ ']' :: rest))
  have e2 := takeWhile_append_eval (p := isWordChar) hnall
    (c := ']') (by decide) rest
  have hshape : TokenPiece.render ⟨digits, tc, name⟩ ++ rest =
      '(' :: (digits ++ tc :: ')' :: '[' :: (name ++ ']' :: rest)) := by
    simp [TokenPiece.render]
  rw [hshape]
  simp only [matchTokenAt, e1.1, e1.2, e2.1, e2.2]
  simp [htc, hd, hn]

/-- A successful match consumes at least its opening parenthesis. -/
theorem matchTokenAt_consumes {l : List Char} {p : TokenPiece} {r : List Char}
    (h : matchTokenAt l = some (p, r)) : r.length < l.length := by
  obtain ⟨hl, _, _, _, _, _⟩ := matchTokenAt_sound h
  rw [hl, List.length_append, TokenPiece.render]
  simp

theorem finditerGo_congr : ∀ (fuel1 fuel2 : Nat) (l : List Char),
    l.length ≤ fuel1 → l.length ≤ fuel2 → finditerGo fuel1 l = finditerGo fuel2 l := by
  intro fuel1
  induction fuel1 with
  | zero =>
    intro fuel2 l h1 h2
    have : l = [] := List.length_eq_zero.mp (by omega)
    subst this
    cases fuel2 <;> rfl
  | succ fuel ih =>
    intro fuel2 l h1 h2
    match l with
    | [] => cases fuel2 <;> rfl
    | c :: l2 =>
      match fuel2 with
      | 0 => simp at h2
      | f2 + 1 =>
        simp only [finditerGo]
        match hm : matchTokenAt (c :: l2) with
        | some (p, rest) =>
          have hcons := matchTokenAt_consumes hm
          simp only [List.length_cons] at h1 h2 hcons
          show p :: finditerGo fuel rest = p :: finditerGo f2 rest
          rw [ih f2 rest (by omega) (by omega)]
        | none =>
          simp only [List.length_cons] at h1 h2
          show finditerGo fuel l2 = finditerGo f2 l2
          exact ih f2 l2 (by omega) (by omega)

theorem finditer_nil : finditer [] = [] := rfl

theorem finditer_cons_match {l : List Char} {p : TokenPiece} {rest : List Char}
    (h : matchTokenAt l = some (p, rest)) : finditer l = p :: finditer rest := by
  have hcons := matchTokenAt_consumes h
  match l with
  | [] => simp [matchTokenAt] at h
  | c :: l2 =>
    show finditerGo (l2.length + 1) (c :: l2) = _
    simp only [finditerGo, h]
    simp only [List.length_cons] at hcons
    rw [finditerGo_congr l2.length rest.length rest (by omega) le_rfl]
    rfl

theorem finditer_cons_nomatch {c : Char} {l : List Char}
    (h : matchTokenAt (c :: l) = none) : finditer (c :: l) = finditer l := by
  show finditerGo (l.length + 1) (c :: l) = finditer l
  simp only [finditerGo, h]
  rfl

/-- Every piece produced by the scanner has the regex shape. -/
theorem finditer_shape : ∀ (l : List Char), ∀ p ∈ finditer l, p.WFShape := by
  have H : ∀ (n : Nat) (l : List Char), l.length = n → ∀ p ∈ finditer l, p.WFShape := by
    intro n
    induction n using Nat.strong_induction_on with
    | _ n ih =>
      intro l hn
      match l with
      | [] => rw [finditer_nil]; simp
      | c :: l2 =>
        match hm : matchTokenAt (c :: l2) with
        | some (p, rest) =>
          rw [finditer_cons_match hm]
          intro q hq
          rcases List.mem_cons.mp hq with rfl | hq2
          · obtain ⟨_, h2, h3, h4, h5, h6⟩ := matchTokenAt_sound hm
            exact ⟨h2, h3, h4, h5, h6⟩
          · have hlt := matchTokenAt_consumes hm
            exact ih rest.length (by omega) rest rfl q hq2
        | none =>
          rw [finditer_cons_nomatch hm]
          intro q hq
          have : l2.length < n := by simp only [← hn]; simp
          exact ih l2.length this l2 rfl q hq
  exact fun l => H l.length l rfl

/-- Scanning the concatenation of well-shaped rendered tokens recovers
exactly those tokens. -/
theorem finditer_renders {ps : List TokenPiece} (h : ∀ p ∈ ps, p.WFShape) :
    finditer ((ps.map TokenPiece.render).flatten) = ps := by
  induction ps with
  | nil => simpa using finditer_nil
  | cons p ps ih =>
    have hp : p.WFShape := h p (by simp)
    have hrec := matchTokenAt_complete hp ((ps.map TokenPiece.render).flatten)
    rw [List.map_cons, List.flatten_cons, finditer_cons_match hrec]
    rw [ih (fun q hq => h q (by simp [hq]))]

theorem takeWhile_all {α : Type} {p : α → Bool} {l : List α}
    (h : ∀ a ∈ l, p a = true) : l.takeWhile p = l := by
  induction l with
  | nil => rfl
  | cons a l ih =>
    have := h a (by simp)
    simp [List.takeWhile, this, ih (fun b hb => h b (by simp [hb]))]

/-- For an all-word-character, nonempty name (exactly what group 3 of the
token regex yields), the `pyvars` full-span check passes precisely when
the name starts with a letter or underscore and has length at least 2. -/
theorem pyvarsFull_iff {name : List Char} (hall : ∀ c ∈ name, isWordChar c = true) :
    pyvarsFull name = true ↔
      (((name.headD ' ').isAlpha || (name.headD ' ') = '_') = true ∧ 2 ≤ name.length) := by
  match name with
  | [] => simp [pyvarsFull, pyvarsMatchEnd]
  | c :: rest =>
    have hrest : rest.takeWhile isWordChar = rest :=
      takeWhile_all (fun b hb => hall b (by simp [hb]))
    simp only [pyvarsFull, pyvarsMatchEnd, hrest, List.headD_cons]
    by_cases hc : (c.isAlpha || c = '_') = true
    · rw [if_pos hc]
      cases rest with
      | nil => simp [hc]
      | cons b bs => simp [hc]; omega
    · rw [if_neg hc]
      simp [hc]

theorem buildTokens_ok_names {ps : List TokenPiece} {off : Nat} {toks : List FormatToken}
    (h : buildTokens ps off = .ok toks) :
    toks.map FormatToken.name = ps.map TokenPiece.name := by
  induction ps generalizing off toks with
  | nil => simp [buildTokens] at h; simp [← h]
  | cons p ps ih =>
    simp only [buildTokens] at h
    split at h
    case h_1 => exact absurd h (by simp)
    case h_2 ct gt heq =>
    split at h
    case isFalse => exact absurd h (by simp)
    case isTrue hpv =>
    split at h
    case h_1 => exact absurd h (by simp)
    case h_2 toks2 heq2 =>
    rw [Except.ok.injEq] at h
    subst h
    simp [ih heq2]

theorem buildTokens_isOk_iff {ps : List TokenPiece} {off : Nat} :
    (∃ toks, buildTokens ps off = .ok toks) ↔
      ∀ p ∈ ps, (typeMap p.tc).isSome ∧ pyvarsFull p.name = true := by
  induction ps generalizing off with
  | nil => simp [buildTokens]
  | cons p ps ih =>
    simp only [buildTokens]
    constructor
    · rintro ⟨toks, h⟩
      split at h
      case h_1 => exact absurd h (by simp)
      case h_2 ct gt heq =>
      split at h
      case isFalse => exact absurd h (by simp)
      case isTrue hpv =>
      split at h
      case h_1 => exact absurd h (by simp)
      case h_2 toks2 heq2 =>
      intro q hq
      rcases List.mem_cons.mp hq with hql | hql
      · subst hql
        exact ⟨by simp [heq], hpv⟩
      · exact (ih.mp ⟨toks2, heq2⟩) q hql
    · intro hall
      obtain ⟨hsome, hpv⟩ := hall p (by simp)
      match htm : typeMap p.tc with
      | none => rw [htm] at hsome; simp at hsome
      | some (ct, gt) =>
        obtain ⟨toks2, h2⟩ :=
          (@ih (off + digitVal (p.digits.getLastD '0') * ct.csize)).mpr
            (fun q hq => hall q (by simp [hq]))
        exact ⟨⟨off, gt, digitVal (p.digits.getLastD '0'),
          (ct, digitVal (p.digits.getLastD '0')), p.name⟩ :: toks2,
          by simp only [htm, hpv, if_true, h2]⟩

theorem ntLoopIdent_eq_none_iff {ns : List (List Char)} :
    ntLoopIdent ns = none ↔ ∀ n ∈ ns, isIdentifier n = true ∧ n ∉ pyKeywords := by
  induction ns with
  | nil => simp [ntLoopIdent]
  | cons n ns ih =>
    simp only [ntLoopIdent]
    by_cases h1 : isIdentifier n = true
    · by_cases h2 : n ∈ pyKeywords
      · simp [h1, h2]
      · simp [h1, h2, ih]
    · simp [h1]

theorem ntLoopSeen_eq_none_iff {ns seen : List (List Char)} :
    ntLoopSeen seen ns = none ↔
      (∀ n ∈ ns, n.head? ≠ some '_' ∧ n ∉ seen) ∧ ns.Nodup := by
  induction ns generalizing seen with
  | nil => simp [ntLoopSeen]
  | cons n ns ih =>
    simp only [ntLoopSeen]
    by_cases h1 : n.head? = some '_'
    · simp [h1]
    · by_cases h2 : n ∈ seen
      · simp [h1, h2]
      · rw [if_neg h1, if_neg h2, ih]
        simp only [List.mem_cons, List.nodup_cons]
        constructor
        · rintro ⟨hall, hnd⟩
          refine ⟨?_, ?_, hnd⟩
          · rintro m (rfl | hm)
            · exact ⟨h1, h2⟩
            · have := hall m hm
              exact ⟨this.1, fun hc => this.2 (by simp [hc])⟩
          · intro hc
            exact (hall n hc).2 (by simp)
        · rintro ⟨hall, hnmem, hnd⟩
          refine ⟨?_, hnd⟩
          intro m hm
          have h3 := hall m (Or.inr hm)
          refine ⟨h3.1, ?_⟩
          intro hc
          rcases hc with rfl | hcs
          · exact hnmem hm
          · exact h3.2 hcs

theorem namedtupleCheck_eq_none_iff {ns : List (List Char)} :
    namedtupleCheck ns = none ↔
      (∀ n ∈ ns, isIdentifier n = true ∧ n ∉ pyKeywords ∧ n.head? ≠ some '_') ∧
        ns.Nodup := by
  simp only [namedtupleCheck]
  split
  case h_1 e heq =>
    simp only [show (some e = none) = False by simp, false_iff]
    rintro ⟨hall, hnd⟩
    have : ntLoopIdent ns = none :=
      ntLoopIdent_eq_none_iff.mpr (fun n hn => ⟨(hall n hn).1, (hall n hn).2.1⟩)
    rw [this] at heq
    exact absurd heq (by simp)
  case h_2 heq =>
    rw [ntLoopSeen_eq_none_iff]
    have hid := ntLoopIdent_eq_none_iff.mp heq
    constructor
    · rintro ⟨hall, hnd⟩
      exact ⟨fun n hn => ⟨(hid n hn).1, (hid n hn).2, (hall n hn).1⟩, hnd⟩
    · rintro ⟨hall, hnd⟩
      exact ⟨fun n hn => ⟨(hall n hn).2.2, by simp⟩, hnd⟩

theorem typeMap_isSome_of_mem {c : Char} (h : c ∈ tokenTypeChars) :
    (typeMap c).isSome = true := by
  fin_cases h <;> decide

theorem TokenPiece.SpecWF.shape {p : TokenPiece} (h : p.SpecWF) : p.WFShape := by
  obtain ⟨h1, h2, h3, h4, h5, h6⟩ := h
  refine ⟨h1, h2, h3, ?_, h6⟩
  intro hh
  rw [hh] at h5
  simp at h5

theorem TokenPiece.SpecWF.pyvars {p : TokenPiece} (h : p.SpecWF) :
    pyvarsFull p.name = true := by
  obtain ⟨_, _, _, h4, h5, h6⟩ := h
  exact (pyvarsFull_iff h6).mpr ⟨h4, h5⟩

theorem isIdentifier_of_headAlpha {name : List Char}
    (h4 : ((name.headD ' ').isAlpha || (name.headD ' ') = '_') = true)
    (hne : name ≠ []) (h6 : ∀ c ∈ name, isWordChar c = true) :
    isIdentifier name = true := by
  match name with
  | [] => exact absurd rfl hne
  | c :: rest =>
    simp only [List.headD_cons] at h4
    simp only [isIdentifier, h4, Bool.true_and, List.all_eq_true]
    exact fun b hb => h6 b (by simp [hb])

/-- Shape facts about a token produced by the regex, read back from a
`pyvarsFull` success: the name check upgrades a match shape to the spec
shape. -/
theorem specWF_of_shape_pyvars {p : TokenPiece} (hs : p.WFShape)
    (hpv : pyvarsFull p.name = true) : p.SpecWF := by
  obtain ⟨h1, h2, h3, h5, h6⟩ := hs
  have := (pyvarsFull_iff h6).mp hpv
  exact ⟨h1, h2, h3, this.1, this.2, h6⟩

theorem render_ne_nil (p : TokenPiece) : p.render ≠ [] := by
  simp [TokenPiece.render]

/-- The parser success condition, exactly: `fromStringStripped` returns a
descriptor precisely when the input is a non-empty exact concatenation of
well-formed tokens whose names `namedtuple` accepts. -/
theorem fromStringStripped_ok_iff {s : List Char} :
    (∃ f, fromStringStripped s = .ok f) ↔ SpecConcat s := by
  constructor
  · rintro ⟨f, h⟩
    simp only [fromStringStripped] at h
    split at h
    case isTrue => exact absurd h (by simp)
    case isFalse hne =>
    split at h
    case h_1 => exact absurd h (by simp)
    case h_2 toks heq =>
    split at h
    case isFalse => exact absurd h (by simp)
    case isTrue hcover =>
    split at h
    case h_1 => exact absurd h (by simp)
    case h_2 hnt =>
    refine ⟨finditer s, ?_, hcover.symm, ?_, ?_⟩
    · intro hnil
      rw [hnil] at hcover
      simp at hcover
      rw [hcover] at hne
      simp at hne
    · intro p hp
      have hsh := finditer_shape s p hp
      have hpv := (buildTokens_isOk_iff.mp ⟨toks, heq⟩ p hp).2
      exact specWF_of_shape_pyvars hsh hpv
    · have hnames := buildTokens_ok_names heq
      have := namedtupleCheck_eq_none_iff.mp hnt
      rw [hnames] at this
      exact ⟨fun n hn => ⟨(this.1 n hn).2.1, (this.1 n hn).2.2⟩, this.2⟩
  · rintro ⟨ps, hne, hs, hwf, hnames⟩
    subst hs
    have hfind : finditer ((ps.map TokenPiece.render).flatten) = ps :=
      finditer_renders (fun p hp => (hwf p hp).shape)
    have hok : ∃ toks, buildTokens ps 0 = .ok toks :=
      buildTokens_isOk_iff.mpr
        (fun p hp => ⟨typeMap_isSome_of_mem (hwf p hp).2.2.1, (hwf p hp).pyvars⟩)
    obtain ⟨toks, htoks⟩ := hok
    have hnt : namedtupleCheck (toks.map FormatToken.name) = none := by
      rw [buildTokens_ok_names htoks]
      refine namedtupleCheck_eq_none_iff.mpr ⟨?_, hnames.2⟩
      intro n hn
      obtain ⟨q, hq, rfl⟩ := List.mem_map.mp hn
      obtain ⟨_, _, _, h4, h5, h6⟩ := hwf q hq
      have hne2 : q.name ≠ [] := by
        intro hh
        rw [hh] at h5
        simp at h5
      exact ⟨isIdentifier_of_headAlpha h4 hne2 h6,
        (hnames.1 _ (List.mem_map_of_mem _ hq)).1,
        (hnames.1 _ (List.mem_map_of_mem _ hq)).2⟩
    have hsne : (ps.map TokenPiece.render).flatten ≠ [] := by
      match ps, hne with
      | p :: ps2, _ =>
        simp only [List.map_cons, List.flatten_cons]
        have := render_ne_nil p
        intro hc
        rcases List.append_eq_nil.mp hc with ⟨h1, _⟩
        exact this h1
    refine ⟨⟨toks⟩, ?_⟩
    simp only [fromStringStripped, hfind, htoks, hnt]
    rw [if_neg (by simpa using hsne)]
    simp

theorem cconvert_ok_of_convertsOk {ct : CType} {n : Int}
    (h : convertsOk ct n = true) :
    cconvert ct (.int n) = .ok (cconvertInt ct n) := by
  simp only [convertsOk, cconvert] at h ⊢
  by_cases hc : ((ct = .glfloat ∨ ct = .gldouble) ∧ floatOverflowBound ≤ n.natAbs)
  · rw [if_pos hc] at h
    simp at h
  · rw [if_neg hc]

theorem arrayAssign_ok (ct : CType) (count : Nat) (g : List Int) :
    ∀ i, i + g.length ≤ count → (∀ v ∈ g, convertsOk ct v = true) →
      arrayAssign ct count (g.map PyVal.int) i = .ok (g.map (cconvertInt ct)) := by
  induction g with
  | nil => intro i h hcv; simp [arrayAssign]
  | cons x g ih =>
    intro i h hcv
    simp only [List.map_cons, arrayAssign]
    rw [if_neg (by simp at h; omega)]
    rw [cconvert_ok_of_convertsOk (hcv x (by simp))]
    rw [ih (i + 1) (by simp at h ⊢; omega) (fun v hv => hcv v (by simp [hv]))]

theorem arrayInit_ok (ct : CType) (g : List Int)
    (hcv : ∀ v ∈ g, convertsOk ct v = true) :
    arrayInit ct g.length (seqifyGroup g) = .ok (g.map (cconvertInt ct)) := by
  simp only [seqifyGroup, arrayInit]
  rw [arrayAssign_ok ct g.length g 0 (by simp) hcv]
  simp

theorem lastIdxOf_eq_none {nm : List Char} {ns : List (List Char)}
    (h : nm ∉ ns) : lastIdxOf nm ns = none := by
  induction ns with
  | nil => rfl
  | cons n ns ih =>
    simp only [List.mem_cons, not_or] at h
    simp only [lastIdxOf, ih h.2]
    rw [if_neg (fun hc => h.1 hc.symm)]

theorem lastIdxOf_last_occurrence {nm : List Char} {pre post : List (List Char)}
    (hpost : nm ∉ post) : lastIdxOf nm (pre ++ nm :: post) = some pre.length := by
  induction pre with
  | nil => simp [lastIdxOf, lastIdxOf_eq_none hpost]
  | cons n pre ih => simp [lastIdxOf, ih]

theorem set_append_length {α : Type} (l₁ : List α) (x : α) (l₂ : List α) (v : α) :
    (l₁ ++ x :: l₂).set l₁.length v = l₁ ++ v :: l₂ := by
  induction l₁ with
  | nil => rfl
  | cons a l ih => simp [List.set, ih]

theorem fillGroups_cons_ok {names : List (List Char)} {t : FormatToken}
    {g : PyVal} {rest : List (PyVal × FormatToken)} {acc : List (List Int)}
    {v : List Int} (hv : arrayInit t.type.1 t.type.2 g = .ok v) :
    fillGroups names ((g, t) :: rest) acc =
      fillGroups names rest (setattrStruct names acc t.name v) := by
  simp only [fillGroups, hv]

/-- The struct-filling loop, fully characterized for a record of integer
groups whose supplied groups match the field widths, on a format without
duplicate names. -/
theorem fillGroups_spec (gs : List (List Int)) :
    ∀ (pre post : List FormatToken) (accPre : List (List Int)),
      accPre.length = pre.length →
      (((pre ++ post).map FormatToken.name)).Nodup →
      (∀ q ∈ gs.zip post, q.1.length = q.2.type.2 ∧
        ∀ v ∈ q.1, convertsOk q.2.type.1 v = true) →
      fillGroups ((pre ++ post).map FormatToken.name)
        ((gs.map seqifyGroup).zip post)
        (accPre ++ post.map (fun t => List.replicate t.type.2 0)) =
      .ok (accPre ++ expectedFill post gs) := by
  induction gs with
  | nil =>
    intro pre post accPre hlen hnd hshape
    simp [fillGroups, expectedFill]
  | cons g gs ih =>
    intro pre post accPre hlen hnd hshape
    match post with
    | [] => simp [fillGroups, expectedFill]
    | t :: post2 =>
      simp only [List.map_cons, List.zip_cons_cons]
      have hg : g.length = t.type.2 := (hshape (g, t) (by simp)).1
      have hv := arrayInit_ok t.type.1 g (hshape (g, t) (by simp)).2
      rw [hg] at hv
      rw [fillGroups_cons_ok hv]
      have hnames : (pre ++ t :: post2).map FormatToken.name =
          pre.map FormatToken.name ++ t.name :: post2.map FormatToken.name := by
        simp
      have hpostnm : t.name ∉ post2.map FormatToken.name := by
        rw [hnames] at hnd
        have := List.Nodup.of_append_right hnd
        exact (List.nodup_cons.mp this).1
      have hset : setattrStruct ((pre ++ t :: post2).map FormatToken.name)
          (accPre ++ List.replicate t.type.2 0 ::
            post2.map (fun t => List.replicate t.type.2 0))
          t.name (g.map (cconvertInt t.type.1)) =
          (accPre ++ [g.map (cconvertInt t.type.1)]) ++
            post2.map (fun t => List.replicate t.type.2 0) := by
        simp only [setattrStruct, hnames, lastIdxOf_last_occurrence hpostnm,
          List.length_map, ← hlen, List.map_cons]
        rw [set_append_length]
        simp
      rw [hset]
      have ihx := ih (pre ++ [t]) post2 (accPre ++ [g.map (cconvertInt t.type.1)])
        (by simp [hlen]) (by simpa using hnd)
        (fun q hq => hshape q (by simp [hq]))
      rw [show (pre ++ [t]) ++ post2 = pre ++ t :: post2 by simp] at ihx
      rw [ihx]
      simp [expectedFill]

/-- One record of integer groups fills as described whenever the supplied
groups match their fields and names are unique (always true for parsed
formats). -/
theorem fillRecord_spec {f : BufferFormat} {gs : List (List Int)}
    (hnd : (f.tokens.map FormatToken.name).Nodup)
    (hshape : ∀ q ∈ gs.zip f.tokens, q.1.length = q.2.type.2 ∧
      ∀ v ∈ q.1, convertsOk q.2.type.1 v = true) :
    fillRecord f (mkRecord gs) = .ok (expectedFill f.tokens gs) := by
  have h := fillGroups_spec gs [] f.tokens [] rfl (by simpa using hnd) hshape
  simpa [fillRecord, mkRecord, BufferFormat.zeroStruct] using h

/-- A record whose first group is a sequence is always treated as already
wrapped by the shorthand test of `pack`. -/
theorem packWrapTest_record {f : BufferFormat} {g0 : List Int}
    {gs : List (List Int)} {rest : List PyVal} :
    packWrapTest f (mkRecord (g0 :: gs) :: rest) = .ok true := by
  simp only [packWrapTest]
  split
  · rfl
  · simp [mkRecord, pyIndex0, seqifyGroup, PyVal.isSequence]

/-- A record whose first group is a sequence is never re-wrapped by the
shorthand test of `pack_single`. -/
theorem packSingleWrap_record {f : BufferFormat} {g0 : List Int}
    {gs : List (List Int)} :
    packSingleWrap f (mkRecord (g0 :: gs)) = .ok (mkRecord (g0 :: gs)) := by
  simp only [packSingleWrap]
  split
  · simp [mkRecord, pyIndex0, seqifyGroup, PyVal.isSequence]
  · rfl

theorem isDigit_not_ws {c : Char} (h : c.isDigit = true) : c.isWhitespace = false := by
  simp only [Char.isDigit, Bool.and_eq_true, decide_eq_true_eq] at h
  simp only [Char.isWhitespace, Bool.or_eq_false_iff, decide_eq_false_iff_not, Char.ext_iff]
  have h1 := h.1
  have h2 := h.2
  refine ⟨⟨⟨?_, ?_⟩, ?_⟩, ?_⟩ <;> intro hc <;> rw [hc] at h1 h2 <;> revert h1 h2 <;> decide

theorem isAlpha_not_ws {c : Char} (h : c.isAlpha = true) : c.isWhitespace = false := by
  simp only [Char.isAlpha, Char.isUpper, Char.isLower, Bool.or_eq_true,
    Bool.and_eq_true, decide_eq_true_eq] at h
  simp only [Char.isWhitespace, Bool.or_eq_false_iff, decide_eq_false_iff_not, Char.ext_iff]
  rcases h with ⟨h1, h2⟩ | ⟨h1, h2⟩ <;>
    (refine ⟨⟨⟨?_, ?_⟩, ?_⟩, ?_⟩ <;> intro hc <;> rw [hc] at h1 h2 <;>
      revert h1 h2 <;> decide)

theorem isWordChar_not_ws {c : Char} (h : isWordChar c = true) :
    c.isWhitespace = false := by
  simp only [isWordChar, Char.isAlphanum, Bool.or_eq_true, decide_eq_true_eq] at h
  rcases h with (h | h) | h
  · exact isAlpha_not_ws h
  · exact isDigit_not_ws h
  · subst h; decide

theorem tokenTypeChars_not_ws {c : Char} (h : c ∈ tokenTypeChars) :
    c.isWhitespace = false := by
  fin_cases h <;> decide

/-- No character of a well-shaped token is whitespace of any kind. -/
theorem render_not_ws {p : TokenPiece} (hp : p.WFShape) :
    ∀ c ∈ p.render, c.isWhitespace = false := by
  obtain ⟨_, hdall, htc, _, hnall⟩ := hp
  intro c hc
  unfold TokenPiece.render at hc
  rcases List.mem_cons.mp hc with rfl | hc2
  · decide
  rcases List.mem_append.mp hc2 with hc3 | hc7
  case inr =>
    rw [List.mem_singleton] at hc7
    subst hc7
    decide
  rcases List.mem_append.mp hc3 with hd | hc4
  · exact isDigit_not_ws (hdall c hd)
  rcases List.mem_cons.mp hc4 with rfl | hc5
  · exact tokenTypeChars_not_ws htc
  rcases List.mem_cons.mp hc5 with rfl | hc6
  · decide
  rcases List.mem_cons.mp hc6 with rfl | hn
  · decide
  exact isWordChar_not_ws (hnall c hn)

/-- Every character of a string accepted by the stripped parser is a
non-whitespace character. -/
theorem specConcat_no_ws {s : List Char} (h : SpecConcat s) :
    ∀ c ∈ s, c.isWhitespace = false := by
  obtain ⟨ps, _, rfl, hwf, _⟩ := h
  intro c hc
  rw [List.mem_flatten] at hc
  obtain ⟨l, hl, hcl⟩ := hc
  obtain ⟨p, hp, rfl⟩ := List.mem_map.mp hl
  exact render_not_ws (hwf p hp).shape c hcl

theorem filter_and_of_filter_all {α : Type} {l : List α} {p q : α → Bool}
    (h : ∀ c ∈ l.filter p, q c = true) :
    l.filter (fun c => p c && q c) = l.filter p := by
  induction l with
  | nil => rfl
  | cons a l ih =>
    by_cases hp : p a = true
    · have hq : q a = true := h a (by simp [List.filter, hp])
      have ihx := ih (fun c hc => h c (by simp only [List.filter, hp] at *; simp [hc]))
      simp [List.filter, hp, hq, ihx]
    · have ihx := ih (fun c hc => h c (by
        simp only [List.filter_cons] at *
        rw [if_neg (by simp [hp])]
        exact hc))
      simp only [List.filter_cons]
      rw [if_neg (by simp [hp]), if_neg (by simp [hp]), ihx]

theorem expectedFill_length : ∀ (ts : List FormatToken) (gs : List (List Int)),
    (expectedFill ts gs).length = ts.length := by
  intro ts
  induction ts with
  | nil => intro gs; cases gs <;> simp [expectedFill]
  | cons t ts ih =>
    intro gs
    cases gs with
    | nil => simp [expectedFill]
    | cons g gs => simp [expectedFill, ih]

/-- Fields beyond the supplied groups keep their zero initialization. -/
theorem expectedFill_get_zero : ∀ (ts : List FormatToken) (gs : List (List Int))
    (i : Nat), gs.length ≤ i →
    (expectedFill ts gs).get? i = (ts.map (fun t => List.replicate t.type.2 0)).get? i := by
  intro ts
  induction ts with
  | nil => intro gs i h; cases gs <;> simp [expectedFill]
  | cons t ts ih =>
    intro gs i h
    cases gs with
    | nil => simp [expectedFill]
    | cons g gs =>
      match i with
      | 0 => simp at h
      | i + 1 =>
        simp only [expectedFill, List.map_cons, List.get?_cons_succ]
        exact ih gs i (by simp at h; omega)

/-- Supplied groups land in their fields, converted element-wise. -/
theorem expectedFill_get_conv : ∀ (ts : List FormatToken) (gs : List (List Int))
    (i : Nat) (g : List Int) (t : FormatToken),
    gs.get? i = some g → ts.get? i = some t →
    (expectedFill ts gs).get? i = some (g.map (cconvertInt t.type.1)) := by
  intro ts
  induction ts with
  | nil => intro gs i g t hg ht; simp at ht
  | cons t0 ts ih =>
    intro gs i g t hg ht
    cases gs with
    | nil => simp at hg
    | cons g0 gs =>
      match i with
      | 0 =>
        simp only [List.get?_cons_zero, Option.some.injEq] at hg ht
        subst hg
        subst ht
        simp [expectedFill]
      | i + 1 =>
        simp only [List.get?_cons_succ] at hg ht
        simp only [expectedFill, List.get?_cons_succ]
        exact ih gs i g t hg ht

/-- C1: the token offsets are indeed the running padding-free sums (0 and 1
for an int8 field followed by an int32 field, 5 bytes in total), but the
ctypes struct that `pack`/`pack_single` actually fill has no `_pack_ = 1`,
so the ABI aligns the int32 field to offset 4 and pads the record to 8
bytes: the packed block is NOT the padding-free concatenation the claim
(and the token offsets themselves) describe.  This evaluates the embedded
code at the failing input `(1b)[ab](1i)[cd]`. -/
theorem c1_no_padding_violated :
    BufferFormat.from_string ("(1b)[ab](1i)[cd]".toList) = .ok fmtByteInt ∧
      fmtByteInt.tokens.map FormatToken.offset = [0, 1] ∧
      fmtByteInt.packedRecordSize = 5 ∧
      fmtByteInt.structFieldOffsets = [0, 4] ∧
      fmtByteInt.structSize = 8 ∧
      fmtByteInt.blockSize 1 ≠ fmtByteInt.packedRecordSize * 1 := by
  refine ⟨by decide, by decide, by decide, by decide, by decide, by decide⟩

/-- C2: the token pattern is `\((\d)+...\)`: the repeated one-character
group keeps only the last digit, so `(12f)[ab]` parses successfully with
count 2, not 12. -/
theorem c2_multidigit_count_truncated :
    BufferFormat.from_string ("(12f)[ab]".toList) =
      .ok ⟨[⟨0, .float, 2, (.glfloat, 2), ['a', 'b']⟩]⟩ ∧
      BufferFormat.from_string ("(12f)[ab]".toList) ≠
        .ok ⟨[⟨0, .float, 12, (.glfloat, 12), ['a', 'b']⟩]⟩ := by
  exact ⟨by decide, by decide⟩

/-- C3: shape mismatches do not raise the documented ValueError.  At the
descriptor of `(3i)[pos]`: two values where three are expected succeed
silently (ctypes zero-fills the missing element); a non-sequence sub-value
raises TypeError which the broken handler turns into UnboundLocalError
(`format_str` is never assigned because the handler compares the map value
pair with the element class); four values where three are expected raise
an uncaught IndexError. -/
theorem c3_shape_error_handler_broken :
    BufferFormat.from_string ("(3i)[pos]".toList) = .ok fmtPos3i ∧
      fmtPos3i.pack_single (seqifyGroup [1, 2]) = .ok [[1, 2, 0]] ∧
      fmtPos3i.pack_single (PyVal.int 7) = .unboundLocal ∧
      fmtPos3i.pack [PyVal.seq [seqifyGroup [1, 2, 3, 4]]] = .exc .indexErr := by
  refine ⟨by decide, by decide, by decide, by decide⟩

/-- C4 counterexample: a format string with two identically named fields
does NOT parse successfully - the claim asserts it does. -/
theorem c4_counterexample_duplicate_names :
    BufferFormat.from_string ("(2f)[ab](2f)[ab]".toList) =
      .error (.ntDuplicate ['a', 'b']) := by
  decide

/-- C4 amended: the token loop itself performs no uniqueness check - both
fields are built, in declaration order - but the `namedtuple('V', names)`
construction at line 227 rejects the duplicate name, so `from_string`
raises ValueError and produces no descriptor. -/
theorem c4_amended_token_loop_accepts_namedtuple_rejects :
    buildTokens (finditer ("(2f)[ab](2f)[ab]".toList)) 0 =
      .ok [⟨0, .float, 2, (.glfloat, 2), ['a', 'b']⟩,
           ⟨8, .float, 2, (.glfloat, 2), ['a', 'b']⟩] ∧
      namedtupleCheck [['a', 'b'], ['a', 'b']] = some (.ntDuplicate ['a', 'b']) := by
  exact ⟨by decide, by decide⟩

/-- C6 counterexample: the claim says `(0f)[ab]` must be rejected, but the
code accepts it: no count validation exists anywhere in `from_string`. -/
theorem c6_counterexample_zero_count_accepted :
    BufferFormat.from_string ("(0f)[ab]".toList) =
      .ok ⟨[⟨0, .float, 0, (.glfloat, 0), ['a', 'b']⟩]⟩ := by
  decide

/-- C6 amended: counts are not validated: `(0f)[ab]` parses to a
zero-element field, and `(05f)[ab]` parses with count 5 (the repeated
one-character digit group keeps the last digit; no leading-zero check
runs). -/
theorem c6_amended_counts_not_validated :
    BufferFormat.from_string ("(0f)[ab]".toList) =
      .ok ⟨[⟨0, .float, 0, (.glfloat, 0), ['a', 'b']⟩]⟩ ∧
      BufferFormat.from_string ("(05f)[ab]".toList) =
        .ok ⟨[⟨0, .float, 5, (.glfloat, 5), ['a', 'b']⟩]⟩ := by
  exact ⟨by decide, by decide⟩

/-- C9: packing an empty record sequence always fails with
`ValueError('No data to pack')`, before anything else happens. -/
theorem c9_empty_records_fail (f : BufferFormat) :
    f.pack [] = .valueError "No data to pack" := rfl

/-- C9 witness at a concrete descriptor. -/
theorem c9_empty_records_fail_witness :
    fmtPos3i.pack [] = .valueError "No data to pack" :=
  c9_empty_records_fail fmtPos3i

/-- C5: parsing is whitespace-insensitive on accepted strings.  If `s`
parses, every character of the space-stripped residue belongs to a token,
hence is not whitespace; so removing ALL whitespace from `s` leaves the
same residue, and parsing it returns the very same descriptor.
Determinism of repeated calls is immediate because the embedded parser is
a pure function of its input. -/
theorem c5_whitespace_insensitive {s : List Char} {f : BufferFormat}
    (h : BufferFormat.from_string s = .ok f) :
    BufferFormat.from_string (s.filter (fun c => !c.isWhitespace)) = .ok f := by
  have hsc : SpecConcat (s.filter (fun c => c != ' ')) :=
    fromStringStripped_ok_iff.mp ⟨f, h⟩
  have hnws := specConcat_no_ws hsc
  show fromStringStripped
    ((s.filter (fun c => !c.isWhitespace)).filter (fun c => c != ' ')) = .ok f
  have e1 : (s.filter (fun c => !c.isWhitespace)).filter (fun c => c != ' ') =
      s.filter (fun c => (c != ' ') && !c.isWhitespace) := by
    rw [List.filter_filter]
  have e2 : s.filter (fun c => (c != ' ') && !c.isWhitespace) =
      s.filter (fun c => c != ' ') :=
    filter_and_of_filter_all (p := fun c => c != ' ') (q := fun c => !c.isWhitespace)
      (fun c hc => by
        have := hnws c hc
        simp [this])
  rw [e1, e2]
  exact h

/-- C5 witness: a concrete accepted string containing a space. -/
theorem c5_whitespace_insensitive_witness :
    BufferFormat.from_string (("(2i)[ab] (2i)[cd]".toList).filter
        (fun c => !c.isWhitespace)) =
      .ok ⟨[⟨0, .int, 2, (.glint, 2), ['a', 'b']⟩,
            ⟨8, .int, 2, (.glint, 2), ['c', 'd']⟩]⟩ :=
  c5_whitespace_insensitive (by decide)

/-- C7 (amended): `from_string` succeeds exactly when the SPACE-stripped
input is a non-empty exact concatenation of well-formed tokens whose
names the `namedtuple` construction accepts (pairwise distinct, no
leading underscore, no Python keyword).  Relative to the claim: only the
space character is removed (other whitespace is a stray character), and
the name conditions are the extra failure source the claim misses. -/
theorem c7_success_iff_spec_concat (s : List Char) :
    (∃ f, BufferFormat.from_string s = .ok f) ↔
      SpecConcat (s.filter (fun c => c != ' ')) :=
  fromStringStripped_ok_iff

/-- C7 witness: the equivalence applied at a concrete well-formed input. -/
theorem c7_success_iff_spec_concat_witness :
    ∃ f, BufferFormat.from_string ("(2f)[ab]".toList) = .ok f :=
  (c7_success_iff_spec_concat _).mpr
    ⟨[⟨['2'], 'f', ['a', 'b']⟩], by decide, by decide, by decide, by decide⟩

/-- C7 counterexample: inputs whose whitespace-stripped form IS a
non-empty exact concatenation of well-formed tokens, yet parsing fails -
refuting the claimed equivalence (failure exactly on non-concatenations)
once for each condition the amendment adds: a duplicated name
(`(2f)[ab](2f)[ab]`), a Python-keyword name (`(3f)[try]`), a name with a
leading underscore (`(2f)[_ab]`), and whitespace other than a space
(`(2f)[ab]` followed by a tab, whose whitespace-stripped form parses but
which itself does not, because only spaces are removed). -/
theorem c7_counterexample_duplicate_concat :
    ("(2f)[ab](2f)[ab]".toList.filter (fun c => c != ' ') =
        (([⟨['2'], 'f', ['a', 'b']⟩, ⟨['2'], 'f', ['a', 'b']⟩]
          : List TokenPiece).map TokenPiece.render).flatten) ∧
      (∀ p ∈ ([⟨['2'], 'f', ['a', 'b']⟩, ⟨['2'], 'f', ['a', 'b']⟩]
        : List TokenPiece), p.SpecWF) ∧
      BufferFormat.from_string ("(2f)[ab](2f)[ab]".toList) =
        .error (.ntDuplicate ['a', 'b']) ∧
      ("(3f)[try]".toList.filter (fun c => c != ' ') =
        (([⟨['3'], 'f', ['t', 'r', 'y']⟩] : List TokenPiece).map
          TokenPiece.render).flatten) ∧
      (∀ p ∈ ([⟨['3'], 'f', ['t', 'r', 'y']⟩] : List TokenPiece), p.SpecWF) ∧
      BufferFormat.from_string ("(3f)[try]".toList) =
        .error (.ntKeyword ['t', 'r', 'y']) ∧
      ("(2f)[_ab]".toList.filter (fun c => c != ' ') =
        (([⟨['2'], 'f', ['_', 'a', 'b']⟩] : List TokenPiece).map
          TokenPiece.render).flatten) ∧
      (∀ p ∈ ([⟨['2'], 'f', ['_', 'a', 'b']⟩] : List TokenPiece), p.SpecWF) ∧
      BufferFormat.from_string ("(2f)[_ab]".toList) =
        .error (.ntUnderscore ['_', 'a', 'b']) ∧
      ("(2f)[ab]	".toList.filter (fun c => !c.isWhitespace) =
        (([⟨['2'], 'f', ['a', 'b']⟩] : List TokenPiece).map
          TokenPiece.render).flatten) ∧
      (∀ p ∈ ([⟨['2'], 'f', ['a', 'b']⟩] : List TokenPiece), p.SpecWF) ∧
      BufferFormat.from_string
        ("(2f)[ab]	".toList.filter (fun c => !c.isWhitespace)) =
        .ok ⟨[⟨0, .float, 2, (.glfloat, 2), ['a', 'b']⟩]⟩ ∧
      BufferFormat.from_string ("(2f)[ab]	".toList) =
        .error .formatNotValid := by
  refine ⟨by decide, by decide, by decide, by decide, by decide, by decide,
    by decide, by decide, by decide, by decide, by decide, by decide,
    by decide⟩

theorem pack_eq_of_wrapTest_false {f : BufferFormat} {data : List PyVal}
    (hd : ¬ data.length = 0) (hw : packWrapTest f data = .ok false) :
    f.pack data = packRecords f (data.map (fun d => PyVal.seq [d])) := by
  simp only [BufferFormat.pack, hw]
  rw [if_neg hd]
  simp

theorem pack_eq_of_wrapTest_true {f : BufferFormat} {data : List PyVal}
    (hd : ¬ data.length = 0) (hw : packWrapTest f data = .ok true) :
    f.pack data = packRecords f data := by
  simp only [BufferFormat.pack, hw]
  rw [if_neg hd]
  simp

theorem packWrapTest_flat {f : BufferFormat} (h1 : f.tokens.length = 1)
    {x : Int} {g0 : List Int} {rest : List PyVal} :
    packWrapTest f (seqifyGroup (x :: g0) :: rest) = .ok false := by
  simp [packWrapTest, h1, seqifyGroup, pyIndex0, PyVal.isSequence]

theorem packWrapTest_wrapped {f : BufferFormat} {g : List Int}
    {vs rest : List PyVal} :
    packWrapTest f (PyVal.seq (seqifyGroup g :: vs) :: rest) = .ok true := by
  simp only [packWrapTest]
  split
  · rfl
  · simp [pyIndex0, seqifyGroup, PyVal.isSequence]

theorem packSingleWrap_flat {f : BufferFormat} (h1 : f.tokens.length = 1)
    {x : Int} {g0 : List Int} :
    packSingleWrap f (seqifyGroup (x :: g0)) =
      .ok (PyVal.seq [seqifyGroup (x :: g0)]) := by
  simp [packSingleWrap, h1, seqifyGroup, pyIndex0, PyVal.isSequence]

theorem packSingleWrap_wrapped {f : BufferFormat} {g : List Int}
    {vs : List PyVal} :
    packSingleWrap f (PyVal.seq (seqifyGroup g :: vs)) =
      .ok (PyVal.seq (seqifyGroup g :: vs)) := by
  simp only [packSingleWrap]
  split
  · simp [pyIndex0, seqifyGroup, PyVal.isSequence]
  · rfl

/-- C8: for a single-field descriptor, the flat and the explicitly wrapped
call shapes are interchangeable, for `pack` (any number of records) and
`pack_single` alike; the detection reads the first element of the first
record, which the claim itself presupposes to exist, hence the nonempty
first group. -/
theorem c8_single_field_shorthand (f : BufferFormat) (g0 : List Int)
    (gs : List (List Int)) (h1 : f.tokens.length = 1) (h0 : g0 ≠ []) :
    f.pack ((g0 :: gs).map seqifyGroup) =
        f.pack ((g0 :: gs).map (fun g => PyVal.seq [seqifyGroup g])) ∧
      f.pack_single (seqifyGroup g0) =
        f.pack_single (PyVal.seq [seqifyGroup g0]) := by
  obtain ⟨x, g0t, rfl⟩ : ∃ x t, g0 = x :: t := by
    cases g0 with
    | nil => exact absurd rfl h0
    | cons a t => exact ⟨a, t, rfl⟩
  constructor
  · rw [show (((x :: g0t) :: gs).map seqifyGroup) =
        seqifyGroup (x :: g0t) :: gs.map seqifyGroup from rfl]
    rw [pack_eq_of_wrapTest_false (by simp) (packWrapTest_flat h1)]
    rw [show (((x :: g0t) :: gs).map (fun g => PyVal.seq [seqifyGroup g])) =
        PyVal.seq (seqifyGroup (x :: g0t) :: []) ::
          gs.map (fun g => PyVal.seq [seqifyGroup g]) from rfl]
    rw [pack_eq_of_wrapTest_true (by simp) packWrapTest_wrapped]
    simp only [List.map_cons, List.map_map]
    rfl
  · rw [show seqifyGroup (x :: g0t) = seqifyGroup (x :: g0t) from rfl]
    simp only [BufferFormat.pack_single, packSingleWrap_flat h1]
    rw [show (PyVal.seq [seqifyGroup (x :: g0t)]) =
        PyVal.seq (seqifyGroup (x :: g0t) :: []) from rfl]
    rw [packSingleWrap_wrapped]

/-- C8 witness at the single-field `(3i)[pos]` descriptor. -/
theorem c8_single_field_shorthand_witness :
    fmtPos3i.pack (([[1, 2, 3], [4, 5, 6]] : List (List Int)).map seqifyGroup) =
        fmtPos3i.pack (([[1, 2, 3], [4, 5, 6]] : List (List Int)).map
          (fun g => PyVal.seq [seqifyGroup g])) ∧
      fmtPos3i.pack_single (seqifyGroup [1, 2, 3]) =
        fmtPos3i.pack_single (PyVal.seq [seqifyGroup [1, 2, 3]]) :=
  c8_single_field_shorthand fmtPos3i [1, 2, 3] [[4, 5, 6]] rfl (by decide)

/-- C10: the packing engine never checks record arity.  With any non-empty
record whose groups match their fields' shape - the declared element
count AND element-wise convertibility to the element class, which for a
float or double field excludes the ints on which ctypes raises
OverflowError - and whose number of groups differs from the field count,
`pack_single` and `pack` succeed; the output block has exactly one slot
per descriptor field, so groups beyond the field count are dropped by
`zip`, and fields beyond the supplied groups keep the zero initialization
of the freshly constructed struct (zero is stored exactly for every
element class, floats included). -/
theorem c10_record_arity_unchecked (f : BufferFormat) (gs : List (List Int))
    (hnd : (f.tokens.map FormatToken.name).Nodup) (hne : gs ≠ [])
    (hlen : gs.length ≠ f.tokens.length)
    (hshape : ∀ q ∈ gs.zip f.tokens, q.1.length = q.2.type.2 ∧
      ∀ v ∈ q.1, convertsOk q.2.type.1 v = true) :
    ∃ b, f.pack_single (mkRecord gs) = .ok b ∧
      f.pack [mkRecord gs] = .ok [b] ∧
      b.length = f.tokens.length ∧
      ∀ i, gs.length ≤ i →
        b.get? i = (f.tokens.map (fun t => List.replicate t.type.2 0)).get? i := by
  obtain ⟨g0, gs1, rfl⟩ : ∃ g0 t, gs = g0 :: t := by
    cases gs with
    | nil => exact absurd rfl hne
    | cons a t => exact ⟨a, t, rfl⟩
  have hfill := fillRecord_spec hnd hshape
  refine ⟨expectedFill f.tokens (g0 :: gs1), ?_, ?_, expectedFill_length _ _,
    fun i hi => expectedFill_get_zero _ _ i hi⟩
  · simp only [BufferFormat.pack_single, packSingleWrap_record, hfill]
  · rw [pack_eq_of_wrapTest_true (by simp) packWrapTest_record]
    simp only [packRecords, hfill]

/-- C10 witness: a two-field descriptor given one group: packing succeeds
and the second field stays zero. -/
theorem c10_record_arity_unchecked_witness :
    ∃ b, fmtTwo2i.pack_single (mkRecord [[1, 2]]) = .ok b ∧
      fmtTwo2i.pack [mkRecord [[1, 2]]] = .ok [b] ∧
      b.length = fmtTwo2i.tokens.length ∧
      ∀ i, ([[1, 2]] : List (List Int)).length ≤ i →
        b.get? i =
          (fmtTwo2i.tokens.map (fun t => List.replicate t.type.2 0)).get? i :=
  c10_record_arity_unchecked fmtTwo2i [[1, 2]]
    (by decide) (by simp) (by decide) (by decide)
